import Mathlib

/-
Formal model of the Pac-Man game core: a shallow embedding of the
movement, collision and decision subsystem found in vector.py, maze.py,
actors.py and game.py.  Pixel coordinates are modelled as rationals
(Python floats are a subset of the rationals and every comparison or
floor the code performs is on the exact value it computed); tile
coordinates are integers; pellet sets are finite sets of tiles.
-/

/-- Embeds vector.py's Vector: an immutable 2D point with rational
(float in the source) components. -/
structure Vec where
  x : ℚ
  y : ℚ
deriving DecidableEq

instance : Add Vec := ⟨fun a b => ⟨a.x + b.x, a.y + b.y⟩⟩

instance : Sub Vec := ⟨fun a b => ⟨a.x - b.x, a.y - b.y⟩⟩

instance : HMul Vec ℚ Vec := ⟨fun v s => ⟨v.x * s, v.y * s⟩⟩

/-- constants.py: TILE_SIZE = 20. -/
def TILE_SIZE : ℚ := 20

/-- constants.py: GRID_WIDTH = 28. -/
def GRID_WIDTH : ℕ := 28

/-- constants.py: SCREEN_WIDTH = GRID_WIDTH * TILE_SIZE = 560. -/
def SCREEN_WIDTH : ℚ := GRID_WIDTH * TILE_SIZE

/-- Python float modulus a % b for positive b: the remainder
a - b * floor(a / b), always in [0, b). -/
def pymod (a b : ℚ) : ℚ := a - b * (⌊a / b⌋ : ℤ)

/-- Python int() applied to a float value: truncation toward zero. -/
def pyint (q : ℚ) : ℤ := if 0 ≤ q then ⌊q⌋ else -⌊-q⌋

/-- Embeds the immutable layout part of maze.py's Maze: the list of rows,
each a list of cell characters. -/
structure Maze where
  layout : List (List Char)
deriving DecidableEq

/-- maze.py: self.width = len(self.layout[0]). -/
def Maze.width (m : Maze) : ℕ := (m.layout.headD []).length

/-- maze.py: self.height = len(self.layout). -/
def Maze.height (m : Maze) : ℕ := m.layout.length

/-- Embeds Maze.is_wall: out-of-bounds tiles count as walls, in-bounds
tiles are walls exactly when the layout cell is the wall marker. -/
def Maze.is_wall (m : Maze) (t : ℤ × ℤ) : Bool :=
  if t.1 < 0 ∨ t.2 < 0 ∨ (m.width : ℤ) ≤ t.1 ∨ (m.height : ℤ) ≤ t.2 then true
  else ((m.layout.getD t.2.toNat []).getD t.1.toNat ' ') == '#'

/-- Embeds Maze.pixel_to_tile: int(x // TILE_SIZE) per axis.  Python's
float floor-division followed by int() of the integer-valued result is
exactly the mathematical floor. -/
def Maze.pixel_to_tile (position : Vec) : ℤ × ℤ :=
  (⌊position.x / TILE_SIZE⌋, ⌊position.y / TILE_SIZE⌋)

/-- Embeds Maze.tile_to_pixel_center: int(x * TILE_SIZE + TILE_SIZE / 2)
per axis.  The operand x * 20 + 10.0 is an exactly-represented integer,
so int() is the identity on it and the result is x * 20 + 10. -/
def Maze.tile_to_pixel_center (t : ℤ × ℤ) : ℤ × ℤ :=
  (t.1 * 20 + 10, t.2 * 20 + 10)

/-- Embeds Maze.collides_with_wall: tests the four corners of the
2*radius bounding square; true when any corner lies in a wall tile. -/
def Maze.collides_with_wall (m : Maze) (position : Vec) (radius : ℚ) : Bool :=
  [Vec.mk (-radius) (-radius), Vec.mk radius (-radius),
   Vec.mk (-radius) radius, Vec.mk radius radius].any
    (fun offset => m.is_wall (Maze.pixel_to_tile (position + offset)))

/-- Embeds Maze.wrap_position: x < 0 relocates to the right edge,
x >= SCREEN_WIDTH relocates to the left edge, y unchanged. -/
def Maze.wrap_position (position : Vec) : Vec :=
  if position.x < 0 then ⟨SCREEN_WIDTH - TILE_SIZE / 2, position.y⟩
  else if SCREEN_WIDTH ≤ position.x then ⟨TILE_SIZE / 2, position.y⟩
  else position

/-- The four direction vectors in the canonical order of
Maze.available_directions and actors.py's DIRECTIONS. -/
def DIRECTIONS : List Vec := [⟨1, 0⟩, ⟨-1, 0⟩, ⟨0, 1⟩, ⟨0, -1⟩]

/-- Embeds Maze.available_directions: the directions whose neighbor
tile is not a wall, in canonical order. -/
def Maze.available_directions (m : Maze) (t : ℤ × ℤ) : List Vec :=
  DIRECTIONS.filter
    (fun d => ! m.is_wall (t.1 + pyint d.x, t.2 + pyint d.y))

/-- Embeds maze.py's PelletSet: the plain and power pellet tiles. -/
structure PelletSet where
  pellets : Finset (ℤ × ℤ)
  power_pellets : Finset (ℤ × ℤ)
deriving DecidableEq

/-- Embeds Maze._find_character's inner column scan: first occurrence of
ch in one row, scanning columns left to right from index col. -/
def find_in_row (ch : Char) (row : ℤ) : ℤ → List Char → Option (ℤ × ℤ)
  | _, [] => none
  | col, c :: rest =>
    if c = ch then some (col, row) else find_in_row ch row (col + 1) rest

/-- Row-scanning worker for Maze._find_character. -/
def find_character_aux (ch : Char) : ℤ → List (List Char) → Option (ℤ × ℤ)
  | _, [] => none
  | row, line :: rest =>
    match find_in_row ch row 0 line with
    | some p => some p
    | none => find_character_aux ch (row + 1) rest

/-- Embeds Maze._find_character: the first tile (scanning rows top to
bottom, columns left to right) holding the character, if any. -/
def find_character (layout : List (List Char)) (ch : Char) : Option (ℤ × ℤ) :=
  find_character_aux ch 0 layout

/-- Embeds Maze._find_characters' inner column scan: all occurrences of
ch in one row. -/
def find_all_in_row (ch : Char) (row : ℤ) : ℤ → List Char → List (ℤ × ℤ)
  | _, [] => []
  | col, c :: rest =>
    if c = ch then (col, row) :: find_all_in_row ch row (col + 1) rest
    else find_all_in_row ch row (col + 1) rest

/-- Row-scanning worker for Maze._find_characters. -/
def find_characters_aux (ch : Char) : ℤ → List (List Char) → List (ℤ × ℤ)
  | _, [] => []
  | row, line :: rest =>
    find_all_in_row ch row 0 line ++ find_characters_aux ch (row + 1) rest

/-- Embeds Maze._find_characters: every tile holding the character, in
scan order. -/
def find_characters (layout : List (List Char)) (ch : Char) : List (ℤ × ℤ) :=
  find_characters_aux ch 0 layout

/-- Embeds PelletSet.from_layout: the set of '.' tiles and the set of
'o' tiles of the layout. -/
def PelletSet.from_layout (layout : List (List Char)) : PelletSet :=
  ⟨(find_characters layout '.').toFinset, (find_characters layout 'o').toFinset⟩

/-- Embeds Maze._validate_layout: fails on the first row whose length
differs from the width taken from the first row. -/
def validate_layout (width : ℕ) : ℕ → List (List Char) → Except String Unit
  | _, [] => Except.ok ()
  | row, line :: rest =>
    if line.length ≠ width then
      Except.error ("Layout row " ++ toString row ++ " has inconsistent width")
    else validate_layout width (row + 1) rest

/-- Embeds the mutable state maze.py's Maze.__init__ establishes: the
layout, the immutable pellet template, the current pellets, the player
start and the ghost starts. -/
structure MazeState where
  maze : Maze
  pellet_template : PelletSet
  pellets : PelletSet
  player_start : ℤ × ℤ
  ghost_starts : List (ℤ × ℤ)
deriving DecidableEq

/-- Embeds Maze.__init__: raises (here: returns Except.error) when the
layout is empty, when a row width is inconsistent, or when no player
start marker exists; otherwise builds the initial maze state, with the
ghost starts falling back to the player start when no marker exists. -/
def Maze.init (layout : List (List Char)) : Except String MazeState :=
  if layout.isEmpty then Except.error ("Layout must contain at least one row")
  else
    match validate_layout (layout.headD []).length 0 layout with
    | Except.error e => Except.error e
    | Except.ok _ =>
      let template := PelletSet.from_layout layout
      match find_character layout 'P' with
      | none => Except.error ("Layout must contain a player start position")
      | some ps =>
        let gs := find_characters layout 'G'
        Except.ok
          { maze := ⟨layout⟩
            pellet_template := template
            pellets := template
            player_start := ps
            ghost_starts := if gs.isEmpty then [ps] else gs }

/-- Embeds Maze.collect_pellet acting on the current pellet state:
returns the score gained and the new pellet state. -/
def collect_pellet (s : PelletSet) (t : ℤ × ℤ) : ℤ × PelletSet :=
  if t ∈ s.pellets then (10, ⟨s.pellets.erase t, s.power_pellets⟩)
  else if t ∈ s.power_pellets then (50, ⟨s.pellets, s.power_pellets.erase t⟩)
  else (0, s)

/-- Embeds Maze.remaining_pellets, as the integer Python's len sum is. -/
def remaining_pellets (s : PelletSet) : ℤ :=
  (s.pellets.card : ℤ) + (s.power_pellets.card : ℤ)

/-- The pellet-mutating operations of maze.py, for stating reachability:
collect_pellet at a tile, and reset_pellets. -/
inductive MazeOp where
  | collect : (ℤ × ℤ) → MazeOp
  | reset : MazeOp
deriving DecidableEq

/-- Applies one pellet operation to the maze state: Maze.collect_pellet
mutates the current pellets, Maze.reset_pellets restores a copy of the
template. -/
def MazeState.apply_op (s : MazeState) : MazeOp → MazeState
  | MazeOp.collect t => { s with pellets := (collect_pellet s.pellets t).2 }
  | MazeOp.reset => { s with pellets := s.pellet_template }

/-- Embeds the mutable state of actors.py's Actor: position, current
direction, optional buffered next direction, speed and radius. -/
structure Actor where
  position : Vec
  direction : Vec
  next_direction : Option Vec
  speed : ℚ
  radius : ℚ
deriving DecidableEq

/-- Embeds Actor._aligned_with_grid: both coordinates, offset by a half
tile, have remainder below 1 modulo TILE_SIZE. -/
def Actor.aligned_with_grid (a : Actor) : Bool :=
  decide (pymod (a.position.x - TILE_SIZE / 2) TILE_SIZE < 1) &&
  decide (pymod (a.position.y - TILE_SIZE / 2) TILE_SIZE < 1)

/-- Embeds Actor._try_change_direction.  The source asserts the buffer
is nonempty (the caller checks); an empty buffer is modelled as no
change. -/
def Actor.try_change_direction (m : Maze) (a : Actor) : Actor :=
  match a.next_direction with
  | none => a
  | some nd =>
    if nd.x = a.direction.x ∧ nd.y = a.direction.y then
      { a with next_direction := none }
    else if ! a.aligned_with_grid then a
    else
      let tile_pos := Maze.pixel_to_tile a.position
      let target_tile := (tile_pos.1 + pyint nd.x, tile_pos.2 + pyint nd.y)
      if m.is_wall target_tile then a
      else { a with direction := nd, next_direction := none }

/-- Embeds Actor._stop_at_wall: snap to the pixel center of the current
tile and zero the direction. -/
def Actor.stop_at_wall (a : Actor) : Actor :=
  let tile_pos := Maze.pixel_to_tile a.position
  let center := Maze.tile_to_pixel_center tile_pos
  { a with position := ⟨(center.1 : ℚ), (center.2 : ℚ)⟩, direction := ⟨0, 0⟩ }

/-- Embeds Actor.update: try a buffered turn, advance by
direction * speed * dt, fall back to the wall snap when the candidate
position collides, then wrap horizontally. -/
def Actor.update (a : Actor) (dt : ℚ) (m : Maze) : Actor :=
  let a1 := if a.next_direction.isSome then Actor.try_change_direction m a else a
  let displacement := a1.direction * (a1.speed * dt)
  let new_position := a1.position + displacement
  let a2 :=
    if ! m.collides_with_wall new_position a1.radius then
      { a1 with position := new_position }
    else Actor.stop_at_wall a1
  { a2 with position := Maze.wrap_position a2.position }

/-- The componentwise negation Vector(-d.x, -d.y) Ghost uses for the
opposite heading. -/
def Vec.opposite (d : Vec) : Vec := ⟨-d.x, -d.y⟩

/-- Embeds Ghost._choose_direction.  random.choice over the candidate
list is modelled by an oracle index k: the element at position
k % length is selected, so every run of the source corresponds to some
k. -/
def Ghost.choose_direction (m : Maze) (a : Actor) (tile_pos : ℤ × ℤ) (k : ℕ) : Vec :=
  let available := m.available_directions tile_pos
  let opp := a.direction.opposite
  let candidates :=
    available.filter (fun d => ! decide (d.x = opp.x ∧ d.y = opp.y))
  let candidates1 := if candidates.isEmpty then available else candidates
  if candidates1.isEmpty then opp
  else candidates1.getD (k % candidates1.length) ⟨0, 0⟩

/-- The squared Euclidean distance between two points; vector.py's
distance_to is its square root. -/
def dist_sq (p q : Vec) : ℚ := (p.x - q.x) ^ 2 + (p.y - q.y) ^ 2

/-- Embeds Game._collides: distance_to(other) < radius_a + radius_b - 2.
Both sides are nonnegative whenever the threshold is (the distance
always is), so the test is equivalent to comparing squares, which stays
in the rationals; a negative threshold can never exceed a distance. -/
def Game.collides (actor_a actor_b : Actor) : Bool :=
  let threshold := actor_a.radius + actor_b.radius - 2
  decide (0 ≤ threshold) &&
    decide (dist_sq actor_a.position actor_b.position < threshold ^ 2)

/-- Embeds game.py's GameState enum. -/
inductive GameState where
  | MENU : GameState
  | PLAYING : GameState
  | GAME_OVER : GameState
deriving DecidableEq

/-- Embeds the Game controller state the collision rules read and
write: maze state, score, level, lives, game state, player, ghosts. -/
structure Game where
  maze : MazeState
  level : ℤ
  score : ℤ
  lives : ℤ
  state : GameState
  player : Actor
  ghosts : List Actor
deriving DecidableEq

/-- Embeds Game.reset_positions: the player returns to the pixel center
of the player start facing left with an empty buffer, and each ghost
(zipped with the maze's ghost starts) returns to the center of its
start tile facing right with an empty buffer. -/
def Game.reset_positions (g : Game) : Game :=
  let pp := Maze.tile_to_pixel_center g.maze.player_start
  let player :=
    { g.player with position := ⟨(pp.1 : ℚ), (pp.2 : ℚ)⟩,
                    direction := ⟨-1, 0⟩, next_direction := none }
  let ghosts := (g.ghosts.zip g.maze.ghost_starts).map (fun gs =>
    let c := Maze.tile_to_pixel_center gs.2
    { gs.1 with position := ⟨(c.1 : ℚ), (c.2 : ℚ)⟩,
                direction := ⟨1, 0⟩, next_direction := none })
  { g with player := player, ghosts := ghosts }

/-- Embeds the ghost-collision loop at the end of Game.update: on the
first ghost colliding with the player, decrement lives, transition to
GAME_OVER when they reach zero and otherwise reset all positions; the
loop breaks, so later ghosts are never examined. -/
def Game.check_ghost_collisions (g : Game) : Game :=
  match g.ghosts.find? (fun ghost => Game.collides g.player ghost) with
  | none => g
  | some _ =>
    let lives1 := g.lives - 1
    if lives1 ≤ 0 then { g with lives := lives1, state := GameState.GAME_OVER }
    else Game.reset_positions { g with lives := lives1 }

/-- Modelled from the claim wording of the alignment test (for the
comparison in claim C5): the distance from a coordinate to the nearest
tile center 20k + 10. -/
def nearest_center_offset (q : ℚ) : ℚ :=
  let r := pymod (q - TILE_SIZE / 2) TILE_SIZE
  min r (TILE_SIZE - r)

/-- Modelled from the claim wording (claim C5): the position's offset
from the nearest tile center is within less than 1 pixel on both axes. -/
def spec_aligned (a : Actor) : Bool :=
  decide (nearest_center_offset a.position.x < 1) &&
  decide (nearest_center_offset a.position.y < 1)

theorem SCREEN_WIDTH_eq : SCREEN_WIDTH = 560 := by
  norm_num [SCREEN_WIDTH, GRID_WIDTH, TILE_SIZE]

theorem TILE_SIZE_eq : TILE_SIZE = 20 := rfl

/-- C4: wrap_position is idempotent, is the identity for x in
[0, SCREEN_WIDTH), sends x < 0 to the right-edge constant and
x >= SCREEN_WIDTH to the left-edge constant, and never changes y. -/
theorem wrap_position_spec (p : Vec) :
    Maze.wrap_position (Maze.wrap_position p) = Maze.wrap_position p ∧
    (0 ≤ p.x ∧ p.x < SCREEN_WIDTH → Maze.wrap_position p = p) ∧
    (p.x < 0 → (Maze.wrap_position p).x = SCREEN_WIDTH - TILE_SIZE / 2) ∧
    (SCREEN_WIDTH ≤ p.x → (Maze.wrap_position p).x = TILE_SIZE / 2) ∧
    (Maze.wrap_position p).y = p.y := by
  have hlt : ∀ (q y : ℚ), q < 0 →
      Maze.wrap_position ⟨q, y⟩ = ⟨SCREEN_WIDTH - TILE_SIZE / 2, y⟩ := by
    intro q y h
    simp [Maze.wrap_position, h]
  have hmid : ∀ (q y : ℚ), 0 ≤ q → q < SCREEN_WIDTH →
      Maze.wrap_position ⟨q, y⟩ = ⟨q, y⟩ := by
    intro q y h1 h2
    simp only [Maze.wrap_position]
    rw [if_neg (not_lt.2 h1), if_neg (not_le.2 h2)]
  have hge : ∀ (q y : ℚ), SCREEN_WIDTH ≤ q →
      Maze.wrap_position ⟨q, y⟩ = ⟨TILE_SIZE / 2, y⟩ := by
    intro q y h
    have h0 : ¬ q < 0 := by rw [SCREEN_WIDTH_eq] at h; intro hq; linarith
    simp only [Maze.wrap_position]
    rw [if_neg h0, if_pos h]
  obtain ⟨x, y⟩ := p
  rcases lt_or_le x 0 with h0 | h0
  · have h1 := hlt x y h0
    have h2 : Maze.wrap_position ⟨SCREEN_WIDTH - TILE_SIZE / 2, y⟩
        = ⟨SCREEN_WIDTH - TILE_SIZE / 2, y⟩ := by
      apply hmid <;> norm_num [SCREEN_WIDTH_eq, TILE_SIZE_eq]
    refine ⟨?_, ?_, ?_, ?_, ?_⟩
    · rw [h1, h2]
    · intro hc
      exact absurd h0 (not_lt.2 hc.1)
    · intro hc
      rw [h1]
    · intro hc
      exfalso
      rw [SCREEN_WIDTH_eq] at hc
      linarith
    · rw [h1]
  · rcases lt_or_le x SCREEN_WIDTH with h1 | h1
    · have h2 := hmid x y h0 h1
      refine ⟨?_, ?_, ?_, ?_, ?_⟩
      · rw [h2, h2]
      · intro hc
        exact h2
      · intro hc
        exact absurd hc (not_lt.2 h0)
      · intro hc
        exact absurd h1 (not_lt.2 hc)
      · rw [h2]
    · have h2 := hge x y h1
      have h3 : Maze.wrap_position ⟨TILE_SIZE / 2, y⟩ = ⟨TILE_SIZE / 2, y⟩ := by
        apply hmid <;> norm_num [SCREEN_WIDTH_eq, TILE_SIZE_eq]
      refine ⟨?_, ?_, ?_, ?_, ?_⟩
      · rw [h2, h3]
      · intro hc
        exfalso
        have hc2 := hc.2
        linarith
      · intro hc
        exfalso
        rw [SCREEN_WIDTH_eq] at h1
        linarith
      · intro hc
        rw [h2]
      · rw [h2]


theorem wrap_position_spec_witness :
    (Maze.wrap_position ⟨-5, 3⟩).x = SCREEN_WIDTH - TILE_SIZE / 2 :=
  (wrap_position_spec ⟨-5, 3⟩).2.2.1 (by norm_num)

/-- C10: converting a tile with nonnegative coordinates to its pixel
center and back with pixel_to_tile yields the same tile. -/
theorem tile_to_pixel_round_trip (c r : ℤ) (hc : 0 ≤ c) (hr : 0 ≤ r) :
    Maze.pixel_to_tile
        ⟨((Maze.tile_to_pixel_center (c, r)).1 : ℚ),
         ((Maze.tile_to_pixel_center (c, r)).2 : ℚ)⟩ = (c, r) := by
  simp only [Maze.pixel_to_tile, Maze.tile_to_pixel_center, TILE_SIZE_eq]
  have key : ∀ z : ℤ, (⌊((z : ℚ) * 20 + 10) / 20⌋ : ℤ) = z := by
    intro z
    have h1 : ((z : ℚ) * 20 + 10) / 20 = (z : ℚ) + 1 / 2 := by
      ring
    rw [h1, Int.floor_int_add]
    norm_num
  push_cast
  simp only [Prod.mk.injEq]
  exact ⟨key c, key r⟩

theorem tile_to_pixel_round_trip_witness :
    Maze.pixel_to_tile
        ⟨((Maze.tile_to_pixel_center (3, 5)).1 : ℚ),
         ((Maze.tile_to_pixel_center (3, 5)).2 : ℚ)⟩ = (3, 5) :=
  tile_to_pixel_round_trip 3 5 (by norm_num) (by norm_num)

theorem collides_eq_true_iff (a b : Actor) :
    Game.collides a b = true ↔
      0 ≤ a.radius + b.radius - 2 ∧
        dist_sq a.position b.position < (a.radius + b.radius - 2) ^ 2 := by
  simp [Game.collides]

/-- C1 counterexample: a player and a ghost with radius 8 each whose
positions are exactly distance 14 apart (squared distance 196) do NOT
collide under Game._collides, contradicting the claim that the test
returns true at distance exactly 14. -/
theorem collides_at_distance_14_cex :
    dist_sq (Vec.mk 0 0) (Vec.mk 14 0) = 14 ^ 2 ∧
    Game.collides ⟨⟨0, 0⟩, ⟨-1, 0⟩, none, 120, 8⟩ ⟨⟨14, 0⟩, ⟨1, 0⟩, none, 90, 8⟩
      = false := by
  constructor
  · norm_num [dist_sq]
  · rw [Bool.eq_false_iff, Ne, collides_eq_true_iff]
    norm_num [dist_sq]

/-- C1 amended: for radius-8 actors Game._collides returns true at
distance 0, false at distance exactly 14, and false at distance 14.01
(the threshold comparison is strict). -/
theorem collides_thresholds (a b : Actor) (ha : a.radius = 8) (hb : b.radius = 8) :
    (dist_sq a.position b.position = 0 → Game.collides a b = true) ∧
    (dist_sq a.position b.position = 14 ^ 2 → Game.collides a b = false) ∧
    (dist_sq a.position b.position = (1401 / 100 : ℚ) ^ 2 → Game.collides a b = false) := by
  refine ⟨fun h0 => ?_, fun h14 => ?_, fun h1401 => ?_⟩
  · rw [collides_eq_true_iff, ha, hb, h0]
    norm_num
  · rw [Bool.eq_false_iff, Ne, collides_eq_true_iff, ha, hb, h14]
    norm_num
  · rw [Bool.eq_false_iff, Ne, collides_eq_true_iff, ha, hb, h1401]
    norm_num

theorem collides_thresholds_witness :
    Game.collides ⟨⟨5, 5⟩, ⟨0, 0⟩, none, 120, 8⟩ ⟨⟨5, 5⟩, ⟨0, 0⟩, none, 90, 8⟩
      = true :=
  (collides_thresholds ⟨⟨5, 5⟩, ⟨0, 0⟩, none, 120, 8⟩ ⟨⟨5, 5⟩, ⟨0, 0⟩, none, 90, 8⟩
    rfl rfl).1 (by norm_num [dist_sq])

/-- C3: collect_pellet removes a plain pellet for 10 points, a power
pellet for 50, otherwise changes nothing and returns 0; a second call
on the same tile returns 0 with no change, and the remaining count
stays nonnegative.  The pellet sets are disjoint in every state built
from a layout (a cell holds one character), which the hypothesis
records. -/
theorem collect_pellet_spec (s : PelletSet) (t : ℤ × ℤ)
    (hdisj : ∀ u ∈ s.pellets, u ∉ s.power_pellets) :
    (t ∈ s.pellets → collect_pellet s t = (10, ⟨s.pellets.erase t, s.power_pellets⟩)) ∧
    (t ∈ s.power_pellets → collect_pellet s t = (50, ⟨s.pellets, s.power_pellets.erase t⟩)) ∧
    (t ∉ s.pellets → t ∉ s.power_pellets → collect_pellet s t = (0, s)) ∧
    collect_pellet (collect_pellet s t).2 t = (0, (collect_pellet s t).2) ∧
    0 ≤ remaining_pellets (collect_pellet s t).2 := by
  have hnn : ∀ u : PelletSet, 0 ≤ remaining_pellets u := by
    intro u
    have h1 : (0 : ℤ) ≤ (u.pellets.card : ℤ) := Int.ofNat_nonneg _
    have h2 : (0 : ℤ) ≤ (u.power_pellets.card : ℤ) := Int.ofNat_nonneg _
    unfold remaining_pellets
    linarith
  refine ⟨fun hp => ?_, fun hq => ?_, fun hp hq => ?_, ?_, hnn _⟩
  · simp [collect_pellet, hp]
  · have hp : t ∉ s.pellets := fun hmem => hdisj t hmem hq
    simp [collect_pellet, hp, hq]
  · simp [collect_pellet, hp, hq]
  · by_cases hp : t ∈ s.pellets
    · have hq : t ∉ s.power_pellets := hdisj t hp
      simp [collect_pellet, hp, hq, Finset.not_mem_erase]
    · by_cases hq : t ∈ s.power_pellets
      · simp [collect_pellet, hp, hq, Finset.not_mem_erase]
      · simp [collect_pellet, hp, hq]

theorem collect_pellet_spec_witness :
    collect_pellet ⟨{(1, 2)}, {(3, 4)}⟩ (1, 2)
      = (10, ⟨({(1, 2)} : Finset (ℤ × ℤ)).erase (1, 2), {(3, 4)}⟩) :=
  (collect_pellet_spec ⟨{(1, 2)}, {(3, 4)}⟩ (1, 2) (by decide)).1 (by decide)

theorem find_in_row_eq_none_iff (ch : Char) (row : ℤ) (line : List Char) :
    ∀ col, find_in_row ch row col line = none ↔ ch ∉ line := by
  induction line with
  | nil =>
    intro col
    simp [find_in_row]
  | cons c rest ih =>
    intro col
    by_cases hc : c = ch
    · rw [find_in_row, if_pos hc]
      simp [hc]
    · rw [find_in_row, if_neg hc, ih (col + 1)]
      constructor
      · intro h hmem
        rcases List.mem_cons.1 hmem with h1 | h1
        · exact hc h1.symm
        · exact h h1
      · intro h hmem
        exact h (List.mem_cons_of_mem _ hmem)

theorem find_character_aux_eq_none_iff (ch : Char) (layout : List (List Char)) :
    ∀ row, find_character_aux ch row layout = none ↔ ∀ l ∈ layout, ch ∉ l := by
  induction layout with
  | nil =>
    intro row
    simp [find_character_aux]
  | cons line rest ih =>
    intro row
    cases hfr : find_in_row ch row 0 line with
    | some p =>
      have hin : ch ∈ line := by
        by_contra hnot
        rw [← find_in_row_eq_none_iff ch row line 0] at hnot
        rw [hnot] at hfr
        exact Option.noConfusion hfr
      have hstep : find_character_aux ch row (line :: rest) = some p := by
        rw [find_character_aux, hfr]
      rw [hstep]
      constructor
      · intro h
        exact Option.noConfusion h
      · intro hall
        exact absurd hin (hall line (List.mem_cons_self line rest))
    | none =>
      have hnotin : ch ∉ line := (find_in_row_eq_none_iff ch row line 0).1 hfr
      have hstep : find_character_aux ch row (line :: rest)
          = find_character_aux ch (row + 1) rest := by
        rw [find_character_aux, hfr]
      rw [hstep, ih (row + 1)]
      constructor
      · intro h l hmem
        rcases List.mem_cons.1 hmem with h1 | h1
        · rw [h1]
          exact hnotin
        · exact h l h1
      · intro h l hmem
        exact h l (List.mem_cons_of_mem _ hmem)

theorem find_character_eq_none_iff (ch : Char) (layout : List (List Char)) :
    find_character layout ch = none ↔ ∀ l ∈ layout, ch ∉ l :=
  find_character_aux_eq_none_iff ch layout 0

theorem validate_layout_ok_iff (width : ℕ) (rows : List (List Char)) :
    ∀ i, validate_layout width i rows = Except.ok () ↔ ∀ l ∈ rows, l.length = width := by
  induction rows with
  | nil =>
    intro i
    simp [validate_layout]
  | cons line rest ih =>
    intro i
    by_cases hl : line.length ≠ width
    · rw [validate_layout, if_pos hl]
      constructor
      · intro h
        exact Except.noConfusion h
      · intro h
        exact absurd (h line (List.mem_cons_self line rest)) hl
    · rw [validate_layout, if_neg hl, ih (i + 1)]
      push_neg at hl
      constructor
      · intro h l hmem
        rcases List.mem_cons.1 hmem with h1 | h1
        · rw [h1]
          exact hl
        · exact h l h1
      · intro h l hmem
        exact h l (List.mem_cons_of_mem _ hmem)

/-- C7: Maze construction fails exactly when the layout is empty, or
some row's length differs from the first row's, or no player start
marker exists; otherwise it succeeds. -/
theorem maze_init_error_iff (layout : List (List Char)) :
    (∃ e, Maze.init layout = Except.error e) ↔
      layout = [] ∨ (∃ l ∈ layout, l.length ≠ (layout.headD []).length) ∨
        ∀ l ∈ layout, 'P' ∉ l := by
  by_cases hemp : layout.isEmpty
  · have hnil : layout = [] := by
      cases layout with
      | nil => rfl
      | cons a b => exact absurd hemp (by simp)
    constructor
    · intro _
      exact Or.inl hnil
    · intro _
      exact ⟨_, by rw [Maze.init, if_pos hemp]⟩
  · have hne : layout ≠ [] := by
      intro h
      rw [h] at hemp
      exact hemp rfl
    cases hv : validate_layout (layout.headD []).length 0 layout with
    | error e =>
      have hbad : ∃ l ∈ layout, l.length ≠ (layout.headD []).length := by
        by_contra hall
        push_neg at hall
        have hok := (validate_layout_ok_iff _ layout 0).2 hall
        rw [hok] at hv
        exact Except.noConfusion hv
      constructor
      · intro _
        exact Or.inr (Or.inl hbad)
      · intro _
        refine ⟨e, ?_⟩
        rw [Maze.init, if_neg hemp, hv]
    | ok u =>
      cases u
      have hall : ∀ l ∈ layout, l.length = (layout.headD []).length :=
        (validate_layout_ok_iff _ layout 0).1 hv
      cases hp : find_character layout 'P' with
      | none =>
        have hnoP : ∀ l ∈ layout, 'P' ∉ l := (find_character_eq_none_iff 'P' layout).1 hp
        constructor
        · intro _
          exact Or.inr (Or.inr hnoP)
        · intro _
          refine ⟨"Layout must contain a player start position", ?_⟩
          rw [Maze.init, if_neg hemp, hv]
          simp [hp]
      | some ps =>
        have hasP : ¬ ∀ l ∈ layout, 'P' ∉ l := by
          intro hall2
          have hnone := (find_character_eq_none_iff 'P' layout).2 hall2
          rw [hnone] at hp
          exact Option.noConfusion hp
        have hnobad : ¬ ∃ l ∈ layout, l.length ≠ (layout.headD []).length := by
          push_neg
          exact hall
        constructor
        · rintro ⟨e, he⟩
          rw [Maze.init, if_neg hemp, hv] at he
          simp [hp] at he
        · rintro (h | h | h)
          · exact absurd h hne
          · exact absurd h hnobad
          · exact absurd h hasP

theorem maze_init_ok_pellets (layout : List (List Char)) (s0 : MazeState)
    (h : Maze.init layout = Except.ok s0) : s0.pellets = s0.pellet_template := by
  rw [Maze.init] at h
  by_cases hemp : layout.isEmpty
  · rw [if_pos hemp] at h
    exact Except.noConfusion h
  · rw [if_neg hemp] at h
    cases hv : validate_layout (layout.headD []).length 0 layout with
    | error e =>
      rw [hv] at h
      exact Except.noConfusion h
    | ok u =>
      cases u
      rw [hv] at h
      cases hp : find_character layout 'P' with
      | none =>
        simp [hp] at h
      | some ps =>
        simp only [hp] at h
        injection h with h2
        rw [← h2]

theorem apply_op_preserves_subsets (s : MazeState) (op : MazeOp)
    (h1 : s.pellets.pellets ⊆ s.pellet_template.pellets)
    (h2 : s.pellets.power_pellets ⊆ s.pellet_template.power_pellets) :
    (s.apply_op op).pellet_template = s.pellet_template ∧
    (s.apply_op op).pellets.pellets ⊆ (s.apply_op op).pellet_template.pellets ∧
    (s.apply_op op).pellets.power_pellets ⊆ (s.apply_op op).pellet_template.power_pellets := by
  cases op with
  | collect t =>
    refine ⟨rfl, ?_, ?_⟩
    · by_cases hp : t ∈ s.pellets.pellets
      · simp only [MazeState.apply_op, collect_pellet, if_pos hp]
        exact Finset.Subset.trans (Finset.erase_subset t _) h1
      · by_cases hq : t ∈ s.pellets.power_pellets
        · simp only [MazeState.apply_op, collect_pellet, if_neg hp, if_pos hq]
          exact h1
        · simp only [MazeState.apply_op, collect_pellet, if_neg hp, if_neg hq]
          exact h1
    · by_cases hp : t ∈ s.pellets.pellets
      · simp only [MazeState.apply_op, collect_pellet, if_pos hp]
        exact h2
      · by_cases hq : t ∈ s.pellets.power_pellets
        · simp only [MazeState.apply_op, collect_pellet, if_neg hp, if_pos hq]
          exact ((s.pellets.power_pellets.erase_subset t).trans h2)
        · simp only [MazeState.apply_op, collect_pellet, if_neg hp, if_neg hq]
          exact h2
  | reset =>
    exact ⟨rfl, Finset.Subset.refl _, Finset.Subset.refl _⟩

theorem foldl_preserves_subsets (ops : List MazeOp) :
    ∀ s : MazeState,
      s.pellets.pellets ⊆ s.pellet_template.pellets →
      s.pellets.power_pellets ⊆ s.pellet_template.power_pellets →
      (ops.foldl MazeState.apply_op s).pellets.pellets
          ⊆ (ops.foldl MazeState.apply_op s).pellet_template.pellets ∧
      (ops.foldl MazeState.apply_op s).pellets.power_pellets
          ⊆ (ops.foldl MazeState.apply_op s).pellet_template.power_pellets := by
  induction ops with
  | nil =>
    intro s h1 h2
    exact ⟨h1, h2⟩
  | cons op rest ih =>
    intro s h1 h2
    have hstep := apply_op_preserves_subsets s op h1 h2
    exact ih (s.apply_op op) hstep.2.1 hstep.2.2

/-- C8: in every state reachable from construction by collect_pellet
and reset_pellets operations, the current pellet sets are subsets of
the template sets; construction itself makes them equal to the
template. -/
theorem pellet_subset_invariant (layout : List (List Char)) (s0 : MazeState)
    (h : Maze.init layout = Except.ok s0) (ops : List MazeOp) :
    s0.pellets = s0.pellet_template ∧
    (ops.foldl MazeState.apply_op s0).pellets.pellets
        ⊆ (ops.foldl MazeState.apply_op s0).pellet_template.pellets ∧
    (ops.foldl MazeState.apply_op s0).pellets.power_pellets
        ⊆ (ops.foldl MazeState.apply_op s0).pellet_template.power_pellets := by
  have h0 := maze_init_ok_pellets layout s0 h
  refine ⟨h0, ?_⟩
  exact foldl_preserves_subsets ops s0 (by rw [h0]) (by rw [h0])

theorem pellet_subset_invariant_witness :
    (([MazeOp.collect (1, 0), MazeOp.collect (1, 0)]).foldl MazeState.apply_op
        ⟨⟨[['P', '.']]⟩, ⟨{(1, 0)}, ∅⟩, ⟨{(1, 0)}, ∅⟩, (0, 0), [(0, 0)]⟩).pellets.pellets
      ⊆ (([MazeOp.collect (1, 0), MazeOp.collect (1, 0)]).foldl MazeState.apply_op
        ⟨⟨[['P', '.']]⟩, ⟨{(1, 0)}, ∅⟩, ⟨{(1, 0)}, ∅⟩, (0, 0), [(0, 0)]⟩).pellet_template.pellets :=
  (pellet_subset_invariant [['P', '.']]
    ⟨⟨[['P', '.']]⟩, ⟨{(1, 0)}, ∅⟩, ⟨{(1, 0)}, ∅⟩, (0, 0), [(0, 0)]⟩
    (by rfl) [MazeOp.collect (1, 0), MazeOp.collect (1, 0)]).2.1

theorem vec_eq_iff (u v : Vec) : u = v ↔ u.x = v.x ∧ u.y = v.y := by
  cases u
  cases v
  simp

theorem getD_mod_mem (l : List Vec) (k : ℕ) (d : Vec) (h : l ≠ []) :
    l.getD (k % l.length) d ∈ l := by
  have hlen : 0 < l.length := List.length_pos.2 h
  have hk : k % l.length < l.length := Nat.mod_lt _ hlen
  rw [List.getD_eq_getElem l d hk]
  exact List.getElem_mem hk

/-- C5 amended: with a buffered direction equal to the current one the
buffer is simply cleared; with a differing buffered direction the turn
commits exactly when the code's alignment test holds (coordinate minus
half a tile has remainder below 1 modulo TILE_SIZE, a one-sided test)
and the neighbor tile one step in the buffered direction is not a
wall; otherwise the actor is unchanged, the buffer left pending. -/
theorem try_change_direction_spec (m : Maze) (a : Actor) (nd : Vec)
    (h : a.next_direction = some nd) :
    (nd = a.direction → a.try_change_direction m = { a with next_direction := none }) ∧
    (nd ≠ a.direction →
      (a.aligned_with_grid = true →
        m.is_wall ((Maze.pixel_to_tile a.position).1 + pyint nd.x,
            (Maze.pixel_to_tile a.position).2 + pyint nd.y) = false →
        a.try_change_direction m = { a with direction := nd, next_direction := none }) ∧
      (a.aligned_with_grid = false → a.try_change_direction m = a) ∧
      (m.is_wall ((Maze.pixel_to_tile a.position).1 + pyint nd.x,
            (Maze.pixel_to_tile a.position).2 + pyint nd.y) = true →
        a.try_change_direction m = a)) := by
  refine ⟨fun heq => ?_, fun hne => ⟨fun hal hnw => ?_, fun hnal => ?_, fun hw => ?_⟩⟩
  · simp only [Actor.try_change_direction, h]
    rw [if_pos ⟨by rw [heq], by rw [heq]⟩]
  · have hcond : ¬ (nd.x = a.direction.x ∧ nd.y = a.direction.y) := by
      intro hc
      exact hne ((vec_eq_iff nd a.direction).2 hc)
    simp only [Actor.try_change_direction, h]
    rw [if_neg hcond]
    simp [hal, hnw]
  · have hcond : ¬ (nd.x = a.direction.x ∧ nd.y = a.direction.y) := by
      intro hc
      exact hne ((vec_eq_iff nd a.direction).2 hc)
    simp only [Actor.try_change_direction, h]
    rw [if_neg hcond]
    simp [hnal]
  · have hcond : ¬ (nd.x = a.direction.x ∧ nd.y = a.direction.y) := by
      intro hc
      exact hne ((vec_eq_iff nd a.direction).2 hc)
    simp only [Actor.try_change_direction, h]
    rw [if_neg hcond]
    by_cases hal : a.aligned_with_grid = true
    · simp [hal, hw]
    · have hal2 : a.aligned_with_grid = false := by
        cases hb : a.aligned_with_grid
        · rfl
        · exact absurd hb hal
      simp [hal2]

theorem try_change_direction_spec_witness :
    Actor.try_change_direction ⟨[[' '], [' ']]⟩ ⟨⟨10, 10⟩, ⟨1, 0⟩, some ⟨0, 1⟩, 120, 8⟩
      = ⟨⟨10, 10⟩, ⟨0, 1⟩, none, 120, 8⟩ :=
  ((try_change_direction_spec ⟨[[' '], [' ']]⟩ ⟨⟨10, 10⟩, ⟨1, 0⟩, some ⟨0, 1⟩, 120, 8⟩
      ⟨0, 1⟩ rfl).2
    (by rw [Ne, vec_eq_iff]; norm_num)).1
    (by rw [Actor.aligned_with_grid]
        norm_num [pymod, TILE_SIZE])
    (by
      have h1 : Maze.pixel_to_tile (⟨10, 10⟩ : Vec) = (0, 0) := by
        norm_num [Maze.pixel_to_tile, TILE_SIZE]
      show Maze.is_wall ⟨[[' '], [' ']]⟩
          ((Maze.pixel_to_tile ⟨10, 10⟩).1 + pyint 0,
           (Maze.pixel_to_tile ⟨10, 10⟩).2 + pyint 1) = false
      rw [h1]
      norm_num [pyint, Maze.is_wall, Maze.width, Maze.height]
      decide)

/-- C5 counterexample: an actor at (9.5, 10) is within half a pixel of
the tile center (10, 10) on both axes — aligned in the claim's sense —
the buffered direction (0,1) differs from the heading (1,0) and the
neighbor tile one step down from the current tile (0,0) is not a wall,
yet _try_change_direction leaves the actor unchanged (buffer pending):
the code's one-sided remainder test 19/2 - 10 mod 20 = 39/2 is not
below 1, so x = 9.5 does not count as aligned. -/
theorem try_change_direction_cex :
    spec_aligned ⟨⟨19 / 2, 10⟩, ⟨1, 0⟩, some ⟨0, 1⟩, 120, 8⟩ = true ∧
    Maze.pixel_to_tile (⟨19 / 2, 10⟩ : Vec) = (0, 0) ∧
    Maze.is_wall ⟨[[' '], [' ']]⟩ (0 + pyint (0 : ℚ), 0 + pyint (1 : ℚ)) = false ∧
    (⟨0, 1⟩ : Vec) ≠ (⟨1, 0⟩ : Vec) ∧
    Actor.try_change_direction ⟨[[' '], [' ']]⟩ ⟨⟨19 / 2, 10⟩, ⟨1, 0⟩, some ⟨0, 1⟩, 120, 8⟩
      = ⟨⟨19 / 2, 10⟩, ⟨1, 0⟩, some ⟨0, 1⟩, 120, 8⟩ := by
  refine ⟨?_, ?_, ?_, ?_, ?_⟩
  · rw [spec_aligned]
    have hx : nearest_center_offset (19 / 2 : ℚ) < 1 := by
      norm_num [nearest_center_offset, pymod, TILE_SIZE]
    have hy : nearest_center_offset (10 : ℚ) < 1 := by
      norm_num [nearest_center_offset, pymod, TILE_SIZE]
    rw [decide_eq_true hx, decide_eq_true hy]
    rfl
  · norm_num [Maze.pixel_to_tile, TILE_SIZE]
  · norm_num [pyint, Maze.is_wall, Maze.width, Maze.height]
    decide
  · rw [Ne, vec_eq_iff]
    norm_num
  · have hal : Actor.aligned_with_grid ⟨⟨19 / 2, 10⟩, ⟨1, 0⟩, some ⟨0, 1⟩, 120, 8⟩ = false := by
      rw [Actor.aligned_with_grid]
      have hx : ¬ pymod ((19 / 2 : ℚ) - TILE_SIZE / 2) TILE_SIZE < 1 := by
        norm_num [pymod, TILE_SIZE]
      rw [decide_eq_false hx]
      rfl
    simp only [Actor.try_change_direction]
    rw [if_neg (by norm_num : ¬ ((⟨0, 1⟩ : Vec).x = (⟨1, 0⟩ : Vec).x ∧ (⟨0, 1⟩ : Vec).y = (⟨1, 0⟩ : Vec).y))]
    simp [hal]

theorem ghost_choose_mem_core (m : Maze) (a : Actor) (t : ℤ × ℤ) (k : ℕ) :
    ((m.available_directions t).filter
        (fun d => ! decide (d.x = a.direction.opposite.x ∧ d.y = a.direction.opposite.y)) ≠ [] →
      Ghost.choose_direction m a t k ∈
        (m.available_directions t).filter
          (fun d => ! decide (d.x = a.direction.opposite.x ∧ d.y = a.direction.opposite.y))) ∧
    ((m.available_directions t).filter
        (fun d => ! decide (d.x = a.direction.opposite.x ∧ d.y = a.direction.opposite.y)) = [] →
      m.available_directions t ≠ [] →
      Ghost.choose_direction m a t k ∈ m.available_directions t) ∧
    (m.available_directions t = [] →
      Ghost.choose_direction m a t k = a.direction.opposite) := by
  set A := m.available_directions t with hA
  set F := A.filter
      (fun d => ! decide (d.x = a.direction.opposite.x ∧ d.y = a.direction.opposite.y)) with hF
  have hunfold : Ghost.choose_direction m a t k =
      (if (if F.isEmpty then A else F).isEmpty then a.direction.opposite
       else (if F.isEmpty then A else F).getD (k % (if F.isEmpty then A else F).length) ⟨0, 0⟩) := by
    rw [Ghost.choose_direction]
  refine ⟨fun hne => ?_, fun hemp hav => ?_, fun hav => ?_⟩
  · have hFI : F.isEmpty = false := by
      cases hFc : F with
      | nil => exact absurd hFc hne
      | cons x xs => rfl
    rw [hunfold, hFI, if_neg Bool.false_ne_true, hFI, if_neg Bool.false_ne_true]
    exact getD_mod_mem _ k _ hne
  · have hFI : F.isEmpty = true := by rw [hemp]; rfl
    have hAI : A.isEmpty = false := by
      cases hAc : A with
      | nil => exact absurd hAc hav
      | cons x xs => rfl
    rw [hunfold, hFI, if_pos rfl, hAI, if_neg Bool.false_ne_true]
    exact getD_mod_mem _ k _ hav
  · have hFI : F.isEmpty = true := by rw [hF, hav]; rfl
    have hAI : A.isEmpty = true := by rw [hav]; rfl
    rw [hunfold, hFI, if_pos rfl, hAI, if_pos rfl]

/-- C6: whenever the ghost re-chooses at an aligned tick, the chosen
direction lies in the available-minus-reverse set when that is
nonempty, else in the full available set when that is nonempty, else
it is the reverse of the heading; in a straight corridor (available
directions are only the heading and its reverse) the heading is kept
deterministically, for every random draw k. -/
theorem ghost_choose_direction_spec (m : Maze) (a : Actor) (t : ℤ × ℤ) (k : ℕ) :
    ((m.available_directions t).filter
        (fun d => ! decide (d.x = a.direction.opposite.x ∧ d.y = a.direction.opposite.y)) ≠ [] →
      Ghost.choose_direction m a t k ∈
        (m.available_directions t).filter
          (fun d => ! decide (d.x = a.direction.opposite.x ∧ d.y = a.direction.opposite.y))) ∧
    ((m.available_directions t).filter
        (fun d => ! decide (d.x = a.direction.opposite.x ∧ d.y = a.direction.opposite.y)) = [] →
      m.available_directions t ≠ [] →
      Ghost.choose_direction m a t k ∈ m.available_directions t) ∧
    (m.available_directions t = [] →
      Ghost.choose_direction m a t k = a.direction.opposite) ∧
    ((∀ d ∈ m.available_directions t, d = a.direction ∨ d = a.direction.opposite) →
      a.direction ∈ m.available_directions t →
      a.direction ≠ a.direction.opposite →
      Ghost.choose_direction m a t k = a.direction) := by
  have core := ghost_choose_mem_core m a t k
  refine ⟨core.1, core.2.1, core.2.2, fun hsub hmem hne => ?_⟩
  have hdirne : ¬ (a.direction.x = a.direction.opposite.x ∧ a.direction.y = a.direction.opposite.y) := by
    intro hc
    exact hne ((vec_eq_iff _ _).2 hc)
  have hdir_mem : a.direction ∈ (m.available_directions t).filter
      (fun d => ! decide (d.x = a.direction.opposite.x ∧ d.y = a.direction.opposite.y)) := by
    rw [List.mem_filter]
    exact ⟨hmem, by rw [decide_eq_false hdirne]; rfl⟩
  have hfne : (m.available_directions t).filter
      (fun d => ! decide (d.x = a.direction.opposite.x ∧ d.y = a.direction.opposite.y)) ≠ [] := by
    intro hnil
    rw [hnil] at hdir_mem
    exact (List.not_mem_nil _) hdir_mem
  have hin := core.1 hfne
  rw [List.mem_filter] at hin
  rcases hsub _ hin.1 with hd | hd
  · exact hd
  · exfalso
    have hin2 := hin.2
    rw [hd, decide_eq_true (⟨rfl, rfl⟩ :
      (a.direction.opposite.x = a.direction.opposite.x ∧
        a.direction.opposite.y = a.direction.opposite.y))] at hin2
    exact Bool.noConfusion hin2

theorem vec_add_x (u v : Vec) : (u + v).x = u.x + v.x := rfl

theorem vec_add_y (u v : Vec) : (u + v).y = u.y + v.y := rfl

theorem collides_with_wall_eq_false_iff (m : Maze) (p : Vec) (r : ℚ) :
    m.collides_with_wall p r = false ↔
      m.is_wall (Maze.pixel_to_tile (p + ⟨-r, -r⟩)) = false ∧
      m.is_wall (Maze.pixel_to_tile (p + ⟨r, -r⟩)) = false ∧
      m.is_wall (Maze.pixel_to_tile (p + ⟨-r, r⟩)) = false ∧
      m.is_wall (Maze.pixel_to_tile (p + ⟨r, r⟩)) = false := by
  simp [Maze.collides_with_wall]

theorem is_wall_eq_false_bounds (m : Maze) (t : ℤ × ℤ) (h : m.is_wall t = false) :
    0 ≤ t.1 ∧ 0 ≤ t.2 ∧ t.1 < (m.width : ℤ) ∧ t.2 < (m.height : ℤ) := by
  rw [Maze.is_wall] at h
  by_cases hc : t.1 < 0 ∨ t.2 < 0 ∨ (m.width : ℤ) ≤ t.1 ∨ (m.height : ℤ) ≤ t.2
  · rw [if_pos hc] at h
    exact Bool.noConfusion h
  · push_neg at hc
    exact ⟨hc.1, hc.2.1, hc.2.2.1, hc.2.2.2⟩

theorem floor_center_between (x r : ℚ) (h0 : 0 ≤ r) (h10 : r < 10) :
    ⌊x / TILE_SIZE⌋ = ⌊(x + -r) / TILE_SIZE⌋ ∨ ⌊x / TILE_SIZE⌋ = ⌊(x + r) / TILE_SIZE⌋ := by
  rw [TILE_SIZE_eq]
  have h20 : (0 : ℚ) < 20 := by norm_num
  have h1 : ⌊(x + -r) / 20⌋ ≤ ⌊x / 20⌋ :=
    Int.floor_le_floor ((div_le_div_right h20).2 (by linarith))
  have h2 : ⌊x / 20⌋ ≤ ⌊(x + r) / 20⌋ :=
    Int.floor_le_floor ((div_le_div_right h20).2 (by linarith))
  have h3 : ⌊(x + r) / 20⌋ ≤ ⌊(x + -r) / 20⌋ + 1 := by
    have hle : ⌊(x + r) / 20⌋ ≤ ⌊(x + -r) / 20 + 1⌋ := by
      apply Int.floor_le_floor
      rw [div_add' _ _ _ (ne_of_gt h20)]
      apply (div_le_div_right h20).2
      linarith
    rwa [show ((1 : ℚ)) = ((1 : ℤ) : ℚ) by norm_num, Int.floor_add_int] at hle
  omega

theorem center_tile_not_wall (m : Maze) (p : Vec) (r : ℚ) (h0 : 0 ≤ r) (h10 : r < 10)
    (h : m.collides_with_wall p r = false) :
    m.is_wall (Maze.pixel_to_tile p) = false := by
  rw [collides_with_wall_eq_false_iff] at h
  obtain ⟨hmm, hpm, hmp, hpp⟩ := h
  simp only [Maze.pixel_to_tile, vec_add_x, vec_add_y] at hmm hpm hmp hpp ⊢
  rcases floor_center_between p.x r h0 h10 with hx | hx <;>
    rcases floor_center_between p.y r h0 h10 with hy | hy <;>
    rw [hx, hy]
  · exact hmm
  · exact hmp
  · exact hpm
  · exact hpp

theorem floor_near_center (z : ℤ) (s : ℚ) (hs1 : -10 < s) (hs2 : s < 10) :
    ⌊(((z * 20 + 10 : ℤ) : ℚ) + s) / TILE_SIZE⌋ = z := by
  rw [TILE_SIZE_eq, Int.floor_eq_iff]
  constructor
  · rw [le_div_iff (by norm_num : (0 : ℚ) < 20)]
    push_cast
    linarith
  · rw [div_lt_iff (by norm_num : (0 : ℚ) < 20)]
    push_cast
    linarith

theorem center_no_collision (m : Maze) (c d : ℤ) (r : ℚ) (h0 : 0 ≤ r) (h10 : r < 10)
    (hw : m.is_wall (c, d) = false) :
    m.collides_with_wall ⟨((c * 20 + 10 : ℤ) : ℚ), ((d * 20 + 10 : ℤ) : ℚ)⟩ r = false := by
  rw [collides_with_wall_eq_false_iff]
  have hm : -10 < -r := by linarith
  have hm2 : -r < 10 := by linarith
  have hp : (-10 : ℚ) < r := by linarith
  refine ⟨?_, ?_, ?_, ?_⟩ <;>
    simp only [Maze.pixel_to_tile, vec_add_x, vec_add_y]
  · rw [floor_near_center c (-r) hm hm2, floor_near_center d (-r) hm hm2]
    exact hw
  · rw [floor_near_center c r hp h10, floor_near_center d (-r) hm hm2]
    exact hw
  · rw [floor_near_center c (-r) hm hm2, floor_near_center d r hp h10]
    exact hw
  · rw [floor_near_center c r hp h10, floor_near_center d r hp h10]
    exact hw

theorem no_collision_x_bounds (m : Maze) (p : Vec) (r : ℚ) (h0 : 0 ≤ r)
    (h : m.collides_with_wall p r = false) :
    r ≤ p.x ∧ p.x + r < 20 * (m.width : ℚ) := by
  rw [collides_with_wall_eq_false_iff] at h
  obtain ⟨hmm, -, -, hpp⟩ := h
  have b1 := is_wall_eq_false_bounds m _ hmm
  have b2 := is_wall_eq_false_bounds m _ hpp
  simp only [Maze.pixel_to_tile, vec_add_x, vec_add_y, TILE_SIZE_eq] at b1 b2
  constructor
  · have h1 : (0 : ℚ) ≤ (p.x + -r) / 20 := by
      have := b1.1
      calc (0 : ℚ) = ((0 : ℤ) : ℚ) := by norm_num
        _ ≤ (⌊(p.x + -r) / 20⌋ : ℚ) := by exact_mod_cast this
        _ ≤ (p.x + -r) / 20 := Int.floor_le _
    nlinarith
  · have h2 : (p.x + r) / 20 < ((m.width : ℤ) : ℚ) := by
      have hlt := b2.2.2.1
      calc (p.x + r) / 20 < (⌊(p.x + r) / 20⌋ : ℚ) + 1 := Int.lt_floor_add_one _
        _ ≤ ((m.width : ℤ) : ℚ) := by exact_mod_cast hlt
    have h3 : p.x + r < 20 * ((m.width : ℤ) : ℚ) := by
      rw [div_lt_iff (by norm_num : (0 : ℚ) < 20)] at h2
      linarith
    exact_mod_cast h3

theorem wrap_id_of_bounds (p : Vec) (h1 : 0 ≤ p.x) (h2 : p.x < SCREEN_WIDTH) :
    Maze.wrap_position p = p := by
  rw [Maze.wrap_position, if_neg (not_lt.2 h1), if_neg (not_le.2 h2)]

theorem try_change_direction_preserves (m : Maze) (a : Actor) :
    (Actor.try_change_direction m a).position = a.position ∧
    (Actor.try_change_direction m a).radius = a.radius := by
  cases hnd : a.next_direction with
  | none => simp [Actor.try_change_direction, hnd]
  | some nd =>
    simp only [Actor.try_change_direction, hnd]
    split_ifs <;> simp

theorem update_no_collision (m : Maze) (a : Actor) (dt : ℚ)
    (hr0 : 0 ≤ a.radius) (hr10 : a.radius < 10) (hwidth : m.width ≤ 28)
    (h : m.collides_with_wall a.position a.radius = false) :
    (a.update dt m).radius = a.radius ∧
    m.collides_with_wall (a.update dt m).position a.radius = false := by
  set a1 := if a.next_direction.isSome = true then Actor.try_change_direction m a else a
    with ha1
  have ha1pos : a1.position = a.position := by
    rw [ha1]
    split
    · exact (try_change_direction_preserves m a).1
    · rfl
  have ha1rad : a1.radius = a.radius := by
    rw [ha1]
    split
    · exact (try_change_direction_preserves m a).2
    · rfl
  have hw28 : (m.width : ℚ) ≤ 28 := by exact_mod_cast hwidth
  have hupdate : a.update dt m =
      (if (! m.collides_with_wall (a1.position + a1.direction * (a1.speed * dt)) a1.radius)
          = true
       then { a1 with position :=
          Maze.wrap_position (a1.position + a1.direction * (a1.speed * dt)) }
       else { a1.stop_at_wall with position := Maze.wrap_position a1.stop_at_wall.position }) := by
    rw [Actor.update, ← ha1]
    by_cases hc : (! m.collides_with_wall (a1.position + a1.direction * (a1.speed * dt))
        a1.radius) = true
    · rw [if_pos hc, if_pos hc]
    · rw [if_neg hc, if_neg hc]
  cases hcol : m.collides_with_wall (a1.position + a1.direction * (a1.speed * dt)) a1.radius with
  | false =>
    have hbounds := no_collision_x_bounds m _ a1.radius (by rw [ha1rad]; exact hr0) hcol
    have hwrap : Maze.wrap_position (a1.position + a1.direction * (a1.speed * dt))
        = a1.position + a1.direction * (a1.speed * dt) := by
      apply wrap_id_of_bounds
      · have := hbounds.1
        rw [ha1rad] at this
        linarith
      · rw [SCREEN_WIDTH_eq]
        have h2 := hbounds.2
        rw [ha1rad] at h2
        nlinarith
    rw [hupdate, hcol]
    simp only [Bool.not_false, if_pos]
    constructor
    · exact ha1rad
    · show m.collides_with_wall (Maze.wrap_position (a1.position + a1.direction * (a1.speed * dt))) a.radius = false
      rw [hwrap, ← ha1rad]
      exact hcol
  | true =>
    have htile : m.is_wall (Maze.pixel_to_tile a.position) = false :=
      center_tile_not_wall m a.position a.radius hr0 hr10 h
    have hbounds := is_wall_eq_false_bounds m _ htile
    have hstop : a1.stop_at_wall.position =
        ⟨(((Maze.pixel_to_tile a.position).1 * 20 + 10 : ℤ) : ℚ),
         (((Maze.pixel_to_tile a.position).2 * 20 + 10 : ℤ) : ℚ)⟩ := by
      rw [Actor.stop_at_wall, ha1pos]
      rfl
    have hstoprad : a1.stop_at_wall.radius = a.radius := by
      rw [Actor.stop_at_wall]
      exact ha1rad
    have hcenter : m.collides_with_wall a1.stop_at_wall.position a.radius = false := by
      rw [hstop]
      apply center_no_collision m _ _ a.radius hr0 hr10
      rw [Prod.mk.eta]
      exact htile
    have hwrap : Maze.wrap_position a1.stop_at_wall.position = a1.stop_at_wall.position := by
      apply wrap_id_of_bounds
      · rw [hstop]
        show (0 : ℚ) ≤ (((Maze.pixel_to_tile a.position).1 * 20 + 10 : ℤ) : ℚ)
        have h1 : (0 : ℚ) ≤ (((Maze.pixel_to_tile a.position).1 : ℤ) : ℚ) := by
          exact_mod_cast hbounds.1
        push_cast at h1 ⊢
        linarith
      · rw [hstop, SCREEN_WIDTH_eq]
        show (((Maze.pixel_to_tile a.position).1 * 20 + 10 : ℤ) : ℚ) < 560
        have h2 := hbounds.2.2.1
        have h3 : (Maze.pixel_to_tile a.position).1 ≤ (m.width : ℤ) - 1 := by omega
        have h4 : ((Maze.pixel_to_tile a.position).1 : ℚ) ≤ (m.width : ℚ) - 1 := by
          exact_mod_cast h3
        push_cast
        nlinarith
    rw [hupdate, hcol]
    simp only [Bool.not_true, if_neg Bool.false_ne_true]
    constructor
    · exact hstoprad
    · show m.collides_with_wall (Maze.wrap_position a1.stop_at_wall.position) a.radius = false
      rw [hwrap]
      exact hcenter

theorem foldl_update_no_collision (m : Maze) (dts : List ℚ) :
    ∀ a : Actor, 0 ≤ a.radius → a.radius < 10 → m.width ≤ 28 →
      m.collides_with_wall a.position a.radius = false →
      (dts.foldl (fun s d => s.update d m) a).radius = a.radius ∧
      m.collides_with_wall ((dts.foldl (fun s d => s.update d m) a).position)
        (dts.foldl (fun s d => s.update d m) a).radius = false := by
  induction dts with
  | nil =>
    intro a h0 h10 hw h
    exact ⟨rfl, h⟩
  | cons d rest ih =>
    intro a h0 h10 hw h
    have hstep := update_no_collision m a d h0 h10 hw h
    have hrest := ih (a.update d m) (by rw [hstep.1]; exact h0) (by rw [hstep.1]; exact h10)
      hw (by rw [hstep.1]; exact hstep.2)
    rw [List.foldl_cons]
    exact ⟨by rw [hrest.1, hstep.1], hrest.2⟩

/-- C2: an actor with the game's radius 8 that starts a tick at a
position not colliding with any wall ends Actor.update at a position
not colliding with any wall, for every dt, and hence stays wall-free
over any sequence of ticks (the maze is at most GRID_WIDTH tiles
wide, as the game's maze is). -/
theorem actor_never_ends_tick_in_wall (m : Maze) (a : Actor) (dt : ℚ) (dts : List ℚ)
    (hr : a.radius = 8) (hwidth : m.width ≤ 28) (hdt : 0 ≤ dt)
    (hdts : ∀ d ∈ dts, 0 ≤ d)
    (h : m.collides_with_wall a.position a.radius = false) :
    m.collides_with_wall (a.update dt m).position a.radius = false ∧
    m.collides_with_wall ((dts.foldl (fun s d => s.update d m) a).position) a.radius = false := by
  have h0 : 0 ≤ a.radius := by rw [hr]; norm_num
  have h10 : a.radius < 10 := by rw [hr]; norm_num
  constructor
  · exact (update_no_collision m a dt h0 h10 hwidth h).2
  · have hseq := foldl_update_no_collision m dts a h0 h10 hwidth h
    rw [hseq.1] at hseq
    exact hseq.2

theorem actor_never_ends_tick_in_wall_witness :
    Maze.collides_with_wall ⟨[[' ', ' ', ' '], [' ', ' ', ' '], [' ', ' ', ' ']]⟩
        ((Actor.update ⟨⟨30, 30⟩, ⟨1, 0⟩, none, 120, 8⟩ 1
          ⟨[[' ', ' ', ' '], [' ', ' ', ' '], [' ', ' ', ' ']]⟩).position) 8 = false ∧
    Maze.collides_with_wall ⟨[[' ', ' ', ' '], [' ', ' ', ' '], [' ', ' ', ' ']]⟩
        ((([1] : List ℚ).foldl
            (fun (s : Actor) d => s.update d ⟨[[' ', ' ', ' '], [' ', ' ', ' '], [' ', ' ', ' ']]⟩)
            (⟨⟨30, 30⟩, ⟨1, 0⟩, none, 120, 8⟩ : Actor)).position) 8 = false :=
  actor_never_ends_tick_in_wall ⟨[[' ', ' ', ' '], [' ', ' ', ' '], [' ', ' ', ' ']]⟩
    ⟨⟨30, 30⟩, ⟨1, 0⟩, none, 120, 8⟩ 1 [1] rfl
    (by norm_num [Maze.width])
    (by norm_num)
    (by
      intro d hd
      rw [List.mem_singleton] at hd
      rw [hd]
      norm_num)
    (by
      show Maze.collides_with_wall ⟨[[' ', ' ', ' '], [' ', ' ', ' '], [' ', ' ', ' ']]⟩
          ⟨30, 30⟩ 8 = false
      have hw11 : Maze.is_wall ⟨[[' ', ' ', ' '], [' ', ' ', ' '], [' ', ' ', ' ']]⟩ (1, 1)
          = false := by decide
      rw [collides_with_wall_eq_false_iff]
      refine ⟨?_, ?_, ?_, ?_⟩ <;>
        · show Maze.is_wall _ (⌊_ / TILE_SIZE⌋, ⌊_ / TILE_SIZE⌋) = false
          norm_num [vec_add_x, vec_add_y, TILE_SIZE]
          exact hw11)

theorem find_first {α : Type} (p : α → Bool) (pre : List α) (x : α) (post : List α)
    (hpre : ∀ y ∈ pre, p y = false) (hx : p x = true) :
    (pre ++ x :: post).find? p = some x := by
  induction pre with
  | nil =>
    rw [List.nil_append]
    exact List.find?_cons_of_pos _ hx
  | cons y ys ih =>
    have hy := hpre y (List.mem_cons_self y ys)
    rw [List.cons_append, List.find?_cons_of_neg _ (by rw [hy]; exact Bool.false_ne_true)]
    exact ih (fun z hz => hpre z (List.mem_cons_of_mem _ hz))

theorem zip_map_position (L : List Actor) (S : List (ℤ × ℤ))
    (f : Actor × (ℤ × ℤ) → Actor) (g : (ℤ × ℤ) → Vec)
    (hf : ∀ a s, (f (a, s)).position = g s) :
    ∀ hlen : L.length = S.length,
      ((L.zip S).map f).map Actor.position = S.map g := by
  induction L generalizing S with
  | nil =>
    intro hlen
    cases S with
    | nil => rfl
    | cons s S2 => simp at hlen
  | cons a L2 ih =>
    intro hlen
    cases S with
    | nil => simp at hlen
    | cons s S2 =>
      simp only [List.zip_cons_cons, List.map_cons, hf]
      rw [ih S2 (by simpa using hlen)]

/-- C9: on a Playing tick where a ghost collides with the player and
the decremented lives stay positive, the state remains Playing, score,
level and the whole maze state (hence both pellet sets) are untouched,
lives drop by one, the player returns to the pixel center of the
player start, every ghost returns to the pixel center of its declared
start, and ghosts after the first colliding one are never examined
(the conclusion holds for every suffix `post`). -/
theorem playing_collision_resets_positions (g : Game) (pre post : List Actor) (gh : Actor)
    (hghosts : g.ghosts = pre ++ gh :: post)
    (hpre : ∀ x ∈ pre, Game.collides g.player x = false)
    (hcol : Game.collides g.player gh = true)
    (hlives : 0 < g.lives - 1)
    (hstate : g.state = GameState.PLAYING)
    (hlen : g.ghosts.length = g.maze.ghost_starts.length) :
    g.check_ghost_collisions.state = GameState.PLAYING ∧
    g.check_ghost_collisions.score = g.score ∧
    g.check_ghost_collisions.level = g.level ∧
    g.check_ghost_collisions.maze = g.maze ∧
    g.check_ghost_collisions.lives = g.lives - 1 ∧
    g.check_ghost_collisions.player.position =
      ⟨((Maze.tile_to_pixel_center g.maze.player_start).1 : ℚ),
       ((Maze.tile_to_pixel_center g.maze.player_start).2 : ℚ)⟩ ∧
    g.check_ghost_collisions.ghosts.map Actor.position =
      g.maze.ghost_starts.map (fun s =>
        (⟨((Maze.tile_to_pixel_center s).1 : ℚ), ((Maze.tile_to_pixel_center s).2 : ℚ)⟩ : Vec)) := by
  have hfind : g.ghosts.find? (fun ghost => Game.collides g.player ghost) = some gh := by
    rw [hghosts]
    exact find_first _ pre gh post hpre hcol
  have hstep : g.check_ghost_collisions =
      Game.reset_positions { g with lives := g.lives - 1 } := by
    rw [Game.check_ghost_collisions, hfind]
    rw [if_neg (by omega : ¬ g.lives - 1 ≤ 0)]
  rw [hstep]
  refine ⟨?_, rfl, rfl, rfl, rfl, rfl, ?_⟩
  · exact hstate
  · show ((g.ghosts.zip g.maze.ghost_starts).map _).map Actor.position = _
    exact zip_map_position g.ghosts g.maze.ghost_starts _ _ (fun a s => rfl) hlen

theorem playing_collision_resets_positions_witness :
    (Game.check_ghost_collisions
        ⟨⟨⟨[['P', 'G']]⟩, ⟨∅, ∅⟩, ⟨∅, ∅⟩, (0, 0), [(1, 0)]⟩, 2, 5, 3, GameState.PLAYING,
          ⟨⟨0, 0⟩, ⟨-1, 0⟩, none, 120, 8⟩, [⟨⟨0, 0⟩, ⟨1, 0⟩, none, 90, 8⟩]⟩).state
        = GameState.PLAYING ∧
    (Game.check_ghost_collisions
        ⟨⟨⟨[['P', 'G']]⟩, ⟨∅, ∅⟩, ⟨∅, ∅⟩, (0, 0), [(1, 0)]⟩, 2, 5, 3, GameState.PLAYING,
          ⟨⟨0, 0⟩, ⟨-1, 0⟩, none, 120, 8⟩, [⟨⟨0, 0⟩, ⟨1, 0⟩, none, 90, 8⟩]⟩).score = 5 ∧
    (Game.check_ghost_collisions
        ⟨⟨⟨[['P', 'G']]⟩, ⟨∅, ∅⟩, ⟨∅, ∅⟩, (0, 0), [(1, 0)]⟩, 2, 5, 3, GameState.PLAYING,
          ⟨⟨0, 0⟩, ⟨-1, 0⟩, none, 120, 8⟩, [⟨⟨0, 0⟩, ⟨1, 0⟩, none, 90, 8⟩]⟩).level = 2 ∧
    (Game.check_ghost_collisions
        ⟨⟨⟨[['P', 'G']]⟩, ⟨∅, ∅⟩, ⟨∅, ∅⟩, (0, 0), [(1, 0)]⟩, 2, 5, 3, GameState.PLAYING,
          ⟨⟨0, 0⟩, ⟨-1, 0⟩, none, 120, 8⟩, [⟨⟨0, 0⟩, ⟨1, 0⟩, none, 90, 8⟩]⟩).maze
        = ⟨⟨[['P', 'G']]⟩, ⟨∅, ∅⟩, ⟨∅, ∅⟩, (0, 0), [(1, 0)]⟩ ∧
    (Game.check_ghost_collisions
        ⟨⟨⟨[['P', 'G']]⟩, ⟨∅, ∅⟩, ⟨∅, ∅⟩, (0, 0), [(1, 0)]⟩, 2, 5, 3, GameState.PLAYING,
          ⟨⟨0, 0⟩, ⟨-1, 0⟩, none, 120, 8⟩, [⟨⟨0, 0⟩, ⟨1, 0⟩, none, 90, 8⟩]⟩).lives = 3 - 1 ∧
    (Game.check_ghost_collisions
        ⟨⟨⟨[['P', 'G']]⟩, ⟨∅, ∅⟩, ⟨∅, ∅⟩, (0, 0), [(1, 0)]⟩, 2, 5, 3, GameState.PLAYING,
          ⟨⟨0, 0⟩, ⟨-1, 0⟩, none, 120, 8⟩, [⟨⟨0, 0⟩, ⟨1, 0⟩, none, 90, 8⟩]⟩).player.position
        = ⟨((Maze.tile_to_pixel_center (0, 0)).1 : ℚ),
           ((Maze.tile_to_pixel_center (0, 0)).2 : ℚ)⟩ ∧
    (Game.check_ghost_collisions
        ⟨⟨⟨[['P', 'G']]⟩, ⟨∅, ∅⟩, ⟨∅, ∅⟩, (0, 0), [(1, 0)]⟩, 2, 5, 3, GameState.PLAYING,
          ⟨⟨0, 0⟩, ⟨-1, 0⟩, none, 120, 8⟩, [⟨⟨0, 0⟩, ⟨1, 0⟩, none, 90, 8⟩]⟩).ghosts.map
        Actor.position
        = ([(1, 0)] : List (ℤ × ℤ)).map (fun s =>
            (⟨((Maze.tile_to_pixel_center s).1 : ℚ),
              ((Maze.tile_to_pixel_center s).2 : ℚ)⟩ : Vec)) :=
  playing_collision_resets_positions
    ⟨⟨⟨[['P', 'G']]⟩, ⟨∅, ∅⟩, ⟨∅, ∅⟩, (0, 0), [(1, 0)]⟩, 2, 5, 3, GameState.PLAYING,
      ⟨⟨0, 0⟩, ⟨-1, 0⟩, none, 120, 8⟩, [⟨⟨0, 0⟩, ⟨1, 0⟩, none, 90, 8⟩]⟩
    [] [] ⟨⟨0, 0⟩, ⟨1, 0⟩, none, 90, 8⟩ rfl
    (by
      intro x hx
      exact absurd hx (List.not_mem_nil x))
    (by
      rw [collides_eq_true_iff]
      norm_num [dist_sq])
    (by norm_num)
    rfl
    rfl
